import Mathlib

/-!
Verification development for the KBFS key-bundle and rekey engine (V3 format).

The Go source is shallowly embedded: Go maps become association lists with
unique keys (iteration order is the list order), Go multiple-return-with-error
becomes tuples whose last component is an `Option Err`, and the `cryptoPure`
interface becomes a structure of (possibly failing) functions.  32-byte keys
and key halves are represented by the natural number their bytes denote
(below `2 ^ 256`), so the additive split is `Nat` bitwise XOR.
-/

namespace KBFS

/-- Keybase user ID (`keybase1.UID`), modelled by its numeric identity. -/
abbrev UID := Nat

/-- A device public key (`kbfscrypto.CryptPublicKey`), modelled by its identity. -/
abbrev CryptPublicKey := Nat

/-- A TLF content key, a 32-byte value modelled as a natural number below `2 ^ 256`. -/
abbrev TLFCryptKey := Nat

/-- The server-side half of a TLF content key (32 bytes). -/
abbrev TLFCryptKeyServerHalf := Nat

/-- The client-side half of a TLF content key (32 bytes). -/
abbrev TLFCryptKeyClientHalf := Nat

/-- A TLF ephemeral private key, opaque to the operations modelled here. -/
abbrev TLFEphemeralPrivateKey := Nat

/-- An `EncryptedTLFCryptKeyClientHalf` value, opaque to the operations modelled here. -/
abbrev EncryptedTLFCryptKeyClientHalf := Nat

/-- A `TLFCryptKeyServerHalfID` (keyed digest handle), opaque to the operations here. -/
abbrev TLFCryptKeyServerHalfID := Nat

/-- An opaque error value (Go `error`), identified by a code. -/
abbrev Err := Nat

/-- `TLFCryptKeyInfo` from `kbfsmd`: a per-device key-half entry. -/
structure TLFCryptKeyInfo where
  clientHalf : EncryptedTLFCryptKeyClientHalf
  serverHalfID : TLFCryptKeyServerHalfID
  ePubKeyIndex : Int
  deriving DecidableEq, Repr

/-- The zero value of `TLFCryptKeyInfo`, as returned by Go on the error paths. -/
def emptyTLFCryptKeyInfo : TLFCryptKeyInfo := ⟨0, 0, 0⟩

/-- `DeviceKeyInfoMapV3`: map from device public key to `TLFCryptKeyInfo`. -/
abbrev DeviceKeyInfoMapV3 := List (CryptPublicKey × TLFCryptKeyInfo)

/-- `UserDeviceKeyInfoMapV3`: map from UID to `DeviceKeyInfoMapV3`. -/
abbrev UserDeviceKeyInfoMapV3 := List (UID × DeviceKeyInfoMapV3)

/-- `DevicePublicKeys`: a set of devices, a Go map from key to `bool`. -/
abbrev DevicePublicKeys := List (CryptPublicKey × Bool)

/-- `UserDevicePublicKeys`: map from UID to `DevicePublicKeys`. -/
abbrev UserDevicePublicKeys := List (UID × DevicePublicKeys)

/-- `DeviceKeyServerHalves`: map from device public key to server half. -/
abbrev DeviceKeyServerHalves := List (CryptPublicKey × TLFCryptKeyServerHalf)

/-- `DeviceServerHalfRemovalInfo`: map from device key to the server-half IDs removed. -/
abbrev DeviceServerHalfRemovalInfo := List (CryptPublicKey × List TLFCryptKeyServerHalfID)

/-- `UserServerHalfRemovalInfo`: whether a user was fully removed, plus the
per-device server-half IDs that were removed. -/
structure UserServerHalfRemovalInfo where
  userRemoved : Bool
  deviceServerHalfIDs : DeviceServerHalfRemovalInfo
  deriving DecidableEq, Repr

/-- `ServerHalfRemovalInfo`: map from UID to `UserServerHalfRemovalInfo`. -/
abbrev ServerHalfRemovalInfo := List (UID × UserServerHalfRemovalInfo)

/-- Lookup in a Go map modelled as an association list (first match). -/
def lookupA {β : Type} : List (Nat × β) → Nat → Option β
  | [], _ => none
  | (a, b) :: t, k => if k = a then some b else lookupA t k

/-- Reading `deviceKeys[key]` from a Go `map[CryptPublicKey]bool`: a missing
key reads as the zero value `false`. -/
def membD (dpk : DevicePublicKeys) (k : CryptPublicKey) : Bool :=
  (lookupA dpk k).getD false

/-- The keys of a Go map are unique. -/
def keysNodup {β : Type} (l : List (Nat × β)) : Prop :=
  (l.map Prod.fst).Nodup

instance {β : Type} (l : List (Nat × β)) : Decidable (keysNodup l) := by
  unfold keysNodup; infer_instance

/-- The removal record for a run of removed device entries: each device maps
to the singleton list of its `ServerHalfID` (`append` onto an empty slice). -/
def removedHalves (dkim : DeviceKeyInfoMapV3) : DeviceServerHalfRemovalInfo :=
  dkim.map (fun p => (p.1, [p.2.serverHalfID]))

/-- `UserDeviceKeyInfoMapV3.RemoveDevicesNotIn` from `kbfsmd/key_bundle_v3.go`:
removes info for any device not contained in the given map of users and
devices, returning the updated map together with the `ServerHalfRemovalInfo`.
A user absent from `updatedUserKeys` is deleted entirely and marked
`UserRemoved = true`; a user present (even with an empty device set) keeps a
map entry holding only its allowed devices, and gets a `UserRemoved = false`
record only when at least one of its devices was removed. -/
def RemoveDevicesNotIn : UserDeviceKeyInfoMapV3 → UserDevicePublicKeys →
    UserDeviceKeyInfoMapV3 × ServerHalfRemovalInfo
  | [], _ => ([], [])
  | (uid, dkim) :: rest, updatedUserKeys =>
    let r := RemoveDevicesNotIn rest updatedUserKeys
    match lookupA updatedUserKeys uid with
    | some deviceKeys =>
      let kept := dkim.filter (fun p => membD deviceKeys p.1)
      let removed := dkim.filter (fun p => ! membD deviceKeys p.1)
      if removed.isEmpty then
        ((uid, kept) :: r.1, r.2)
      else
        ((uid, kept) :: r.1, (uid, ⟨false, removedHalves removed⟩) :: r.2)
    | none =>
      (r.1, (uid, ⟨true, removedHalves dkim⟩) :: r.2)

/-- The `cryptoPure` interface from `kbfsmd`: the pure crypto capabilities
used by key splitting.  The random-server-half draw is modelled as one
deterministic outcome. -/
structure cryptoPure where
  makeRandomTLFCryptKeyServerHalf : Except Err TLFCryptKeyServerHalf
  encryptTLFCryptKeyClientHalf : TLFEphemeralPrivateKey → CryptPublicKey →
    TLFCryptKeyClientHalf → Except Err EncryptedTLFCryptKeyClientHalf
  getTLFCryptKeyServerHalfID : UID → CryptPublicKey → TLFCryptKeyServerHalf →
    Except Err TLFCryptKeyServerHalfID

/-- Modelled from the spec: `kbfscrypto.MaskTLFCryptKey` is not under `src/`;
per the spec the client half is the additive (bitwise) split
`ClientHalf = ServerHalf ⊕ ContentKey`, here XOR on the numbers the 32-byte
values denote. -/
def MaskTLFCryptKey (serverHalf : TLFCryptKeyServerHalf) (key : TLFCryptKey) :
    TLFCryptKeyClientHalf :=
  serverHalf ^^^ key

/-- Modelled from the spec: `kbfscrypto.UnmaskTLFCryptKey` is not under `src/`;
per the spec recombination is `ClientHalf ⊕ ServerHalf`. -/
def UnmaskTLFCryptKey (serverHalf : TLFCryptKeyServerHalf)
    (clientHalf : TLFCryptKeyClientHalf) : TLFCryptKey :=
  serverHalf ^^^ clientHalf

/-- `SplitTLFCryptKey` from `kbfsmd`: creates a new random server half, masks
it with the key to get the client half, encrypts the client half, and derives
the server-half ID; any failure is returned with zero values. -/
def SplitTLFCryptKey (crypto : cryptoPure) (uid : UID) (tlfCryptKey : TLFCryptKey)
    (ePrivKey : TLFEphemeralPrivateKey) (ePubIndex : Int) (pubKey : CryptPublicKey) :
    TLFCryptKeyInfo × TLFCryptKeyServerHalf × Option Err :=
  match crypto.makeRandomTLFCryptKeyServerHalf with
  | .error e => (emptyTLFCryptKeyInfo, 0, some e)
  | .ok serverHalf =>
    let clientHalf := MaskTLFCryptKey serverHalf tlfCryptKey
    match crypto.encryptTLFCryptKeyClientHalf ePrivKey pubKey clientHalf with
    | .error e => (emptyTLFCryptKeyInfo, 0, some e)
    | .ok encryptedClientHalf =>
      match crypto.getTLFCryptKeyServerHalfID uid pubKey serverHalf with
      | .error e => (emptyTLFCryptKeyInfo, 0, some e)
      | .ok serverHalfID =>
        (⟨encryptedClientHalf, serverHalfID, ePubIndex⟩, serverHalf, none)

/-- The loop body of `DeviceKeyInfoMapV3.FillInDeviceInfos`: iterates over the
target devices, skipping entries already present, and splitting the key for
absent ones; on a split failure it returns the map as mutated so far, a nil
(`none`) server-half map, and the error. -/
def fillInDeviceInfosLoop (crypto : cryptoPure) (uid : UID) (tlfCryptKey : TLFCryptKey)
    (ePrivKey : TLFEphemeralPrivateKey) (ePubIndex : Int) :
    DevicePublicKeys → DeviceKeyInfoMapV3 → DeviceKeyServerHalves →
    DeviceKeyInfoMapV3 × Option DeviceKeyServerHalves × Option Err
  | [], dkim, acc => (dkim, some acc, none)
  | (k, _) :: rest, dkim, acc =>
    if (lookupA dkim k).isSome then
      fillInDeviceInfosLoop crypto uid tlfCryptKey ePrivKey ePubIndex rest dkim acc
    else
      match SplitTLFCryptKey crypto uid tlfCryptKey ePrivKey ePubIndex k with
      | (_, _, some e) => (dkim, none, some e)
      | (clientInfo, serverHalf, none) =>
        fillInDeviceInfosLoop crypto uid tlfCryptKey ePrivKey ePubIndex rest
          (dkim ++ [(k, clientInfo)]) (acc ++ [(k, serverHalf)])

/-- `DeviceKeyInfoMapV3.FillInDeviceInfos` from `kbfsmd/key_bundle_v3.go`:
fills in new entries for target devices absent from the map (skipping existing
entries) and returns the newly created server halves, or the first error. -/
def FillInDeviceInfos (dkim : DeviceKeyInfoMapV3) (crypto : cryptoPure) (uid : UID)
    (tlfCryptKey : TLFCryptKey) (ePrivKey : TLFEphemeralPrivateKey) (ePubIndex : Int)
    (updatedDeviceKeys : DevicePublicKeys) :
    DeviceKeyInfoMapV3 × Option DeviceKeyServerHalves × Option Err :=
  fillInDeviceInfosLoop crypto uid tlfCryptKey ePrivKey ePubIndex updatedDeviceKeys dkim []

/-- A concrete crypto implementation whose operations all succeed, used to
evaluate the key-splitting operations on concrete inputs. -/
def cryptoOK : cryptoPure :=
  ⟨.ok 5, fun _ _ ch => .ok (ch + 1000),
   fun u k sh => .ok (u * 1000000 + k * 1000 + sh)⟩

/-- A concrete crypto implementation whose random server-half draw fails. -/
def cryptoRandFail : cryptoPure :=
  ⟨.error 42, fun _ _ ch => .ok (ch + 1000),
   fun u k sh => .ok (u * 1000000 + k * 1000 + sh)⟩

/-- A concrete crypto implementation whose client-half encryption fails. -/
def cryptoEncFail : cryptoPure :=
  ⟨.ok 5, fun _ _ _ => .error 43,
   fun u k sh => .ok (u * 1000000 + k * 1000 + sh)⟩

/-- A concrete crypto implementation whose server-half ID derivation fails. -/
def cryptoServerHalfIDFail : cryptoPure :=
  ⟨.ok 5, fun _ _ ch => .ok (ch + 1000), fun _ _ _ => .error 44⟩

/-- A Go map value, distinguishing a nil map from an explicitly allocated
empty one (both read as empty, but they are distinct values). -/
inductive GoMap (α : Type) where
  | nilMap
  | mkMap (entries : List α)
  deriving DecidableEq, Repr

/-- The entries of a Go map; a nil map has none. -/
def GoMap.entries {α : Type} : GoMap α → List α
  | .nilMap => []
  | .mkMap l => l

/-- `TLFWriterKeyBundleV3` from `kbfsmd`: user device key infos, the TLF
public key, the ephemeral public keys used across generations, the encrypted
historic content keys, and the unknown-field bag (the last two opaque here). -/
structure TLFWriterKeyBundleV3 where
  keys : GoMap (UID × DeviceKeyInfoMapV3)
  tlfPublicKey : Nat
  tlfEphemeralPublicKeys : List Nat
  encryptedHistoricTLFCryptKeys : Nat
  unknownFields : List Nat
  deriving DecidableEq, Repr

/-- `TLFReaderKeyBundleV3` from `kbfsmd`: user device key infos, the ephemeral
public keys, and the unknown-field bag. -/
structure TLFReaderKeyBundleV3 where
  keys : GoMap (UID × DeviceKeyInfoMapV3)
  tlfEphemeralPublicKeys : List Nat
  unknownFields : List Nat
  deriving DecidableEq, Repr

/-- Deterministic encoding of an integer as a natural number. -/
def encodeInt (n : Int) : Nat :=
  if 0 ≤ n then 2 * n.toNat else 2 * (-n).toNat + 1

/-- Deterministic encoding of a per-device key info. -/
def encodeInfo (i : TLFCryptKeyInfo) : List Nat :=
  [i.clientHalf, i.serverHalfID, encodeInt i.ePubKeyIndex]

/-- Modelled from the spec: the codec encoding of a `UserDeviceKeyInfoMapV3`
field (the codec itself is not under `src/`).  The encoding is a deterministic
function of the map's entries, so a nil map and an explicitly empty map encode
identically, as the wire-format requirement demands. -/
def encodeUDKIM (m : GoMap (UID × DeviceKeyInfoMapV3)) : List Nat :=
  m.entries.flatMap (fun p => p.1 :: (p.2.flatMap (fun q => q.1 :: encodeInfo q.2)))

/-- Modelled from the spec: the deterministic codec encoding of a writer key
bundle, from its fields. -/
def encodeWKB (wkb : TLFWriterKeyBundleV3) : List Nat :=
  encodeUDKIM wkb.keys ++ [wkb.tlfPublicKey] ++ wkb.tlfEphemeralPublicKeys ++
    [wkb.encryptedHistoricTLFCryptKeys] ++ wkb.unknownFields

/-- Modelled from the spec: the deterministic codec encoding of a reader key
bundle, from its fields. -/
def encodeRKB (rkb : TLFReaderKeyBundleV3) : List Nat :=
  encodeUDKIM rkb.keys ++ rkb.tlfEphemeralPublicKeys ++ rkb.unknownFields

/-- Modelled from the spec: `MakeTLFWriterKeyBundleID` is not under `src/`.
A writer bundle with zero device entries fails identifier computation; any
other bundle hashes its deterministic encoding (the collision-resistant digest
is modelled as the encoding itself). -/
def MakeTLFWriterKeyBundleID (wkb : TLFWriterKeyBundleV3) : Except Err (List Nat) :=
  if wkb.keys.entries.isEmpty then .error 1 else .ok (encodeWKB wkb)

/-- Modelled from the spec: `MakeTLFReaderKeyBundleID` is not under `src/`.
A reader bundle may legitimately have zero entries; the identifier is the
hash of the deterministic encoding. -/
def MakeTLFReaderKeyBundleID (rkb : TLFReaderKeyBundleV3) : Except Err (List Nat) :=
  .ok (encodeRKB rkb)

/-- Modelled from the spec: a bundle `DeepCopy` re-encodes and decodes through
the codec, yielding an equal value; on a pure value this is the identity. -/
def TLFWriterKeyBundleV3.deepCopy (wkb : TLFWriterKeyBundleV3) : TLFWriterKeyBundleV3 :=
  wkb

/-- Modelled from the spec: a bundle `DeepCopy` re-encodes and decodes through
the codec, yielding an equal value; on a pure value this is the identity. -/
def TLFReaderKeyBundleV3.deepCopy (rkb : TLFReaderKeyBundleV3) : TLFReaderKeyBundleV3 :=
  rkb

/-- `ExtraMetadataV3` from `kbfsmd/extra_metadata_v3.go`: the in-memory pair
of key bundles with the two dirty flags. -/
structure ExtraMetadataV3 where
  wkb : TLFWriterKeyBundleV3
  rkb : TLFReaderKeyBundleV3
  wkbNew : Bool
  rkbNew : Bool
  deriving DecidableEq, Repr

/-- `ExtraMetadataV3.UpdateNew`: ORs the given flags into the dirty flags. -/
def ExtraMetadataV3.UpdateNew (extra : ExtraMetadataV3) (wkbNew rkbNew : Bool) :
    ExtraMetadataV3 :=
  { extra with wkbNew := extra.wkbNew || wkbNew, rkbNew := extra.rkbNew || rkbNew }

/-- `ExtraMetadataV3.DeepCopy`: deep-copies both bundles and keeps both flags. -/
def ExtraMetadataV3.DeepCopy (extra : ExtraMetadataV3) : ExtraMetadataV3 :=
  ⟨extra.wkb.deepCopy, extra.rkb.deepCopy, extra.wkbNew, extra.rkbNew⟩

/-- `ExtraMetadataV3.MakeSuccessorCopy`: deep-copies both bundles and clears
both dirty flags. -/
def ExtraMetadataV3.MakeSuccessorCopy (extra : ExtraMetadataV3) : ExtraMetadataV3 :=
  ⟨extra.wkb.deepCopy, extra.rkb.deepCopy, false, false⟩

/-- A metadata format version (`MetadataVer`, a Go `int`). -/
abbrev MetadataVer := Int

/-- Modelled from the spec: the first valid metadata format version of the
supported ordered range (the version constants are not under `src/`). -/
def FirstValidMetadataVer : MetadataVer := 0

/-- Modelled from the spec: the latest supported metadata format version, the
segregated-key-bundles format. -/
def SegregatedKeyBundlesVer : MetadataVer := 3

/-- `kbfsmd.InvalidMetadataVersionError`: the typed error for a version below
the first valid one. -/
structure InvalidMetadataVersionError where
  tlfID : Nat
  metadataVer : MetadataVer
  deriving DecidableEq, Repr

/-- The message of the Go panic raised for a version above the supported range. -/
def invalidMetadataVersionPanicMsg : String :=
  "Invalid metadata version"

/-- The outcome of `MakeInitialBareRootMetadata`: initial metadata in the V2
(pre-segregated) or V3 (segregated) format, a typed error value, or a Go
panic. -/
inductive InitialBareRootMetadataOutcome where
  | made2 (tlfID h : Nat)
  | made3 (tlfID h : Nat)
  | errored (e : InvalidMetadataVersionError)
  | panicked (msg : String)
  deriving DecidableEq, Repr

/-- Whether the outcome is a returned error value. -/
def InitialBareRootMetadataOutcome.isErrored : InitialBareRootMetadataOutcome → Bool
  | .errored _ => true
  | _ => false

/-- `MakeInitialBareRootMetadata` from `libkbfs/bare_root_metadata.go`: a
version below `FirstValidMetadataVer` yields `InvalidMetadataVersionError`, a
version above `SegregatedKeyBundlesVer` panics, a version below
`SegregatedKeyBundlesVer` builds V2 metadata, and `SegregatedKeyBundlesVer`
itself builds V3 metadata. -/
def MakeInitialBareRootMetadata (ver : MetadataVer) (tlfID h : Nat) :
    InitialBareRootMetadataOutcome :=
  if ver < FirstValidMetadataVer then .errored ⟨tlfID, ver⟩
  else if SegregatedKeyBundlesVer < ver then .panicked invalidMetadataVersionPanicMsg
  else if ver < SegregatedKeyBundlesVer then .made2 tlfID h
  else .made3 tlfID h

/-- Claim C1: on a map with users `u1` (devices `k1a`, `k1b`), `u2` (devices
`k2a`, `k2b`, `k2c`) and `u3` (device `k3a`), removing devices not in a
membership that keeps `k2a`, `k2c` and `k3a` marks `u1` fully removed listing
both its device server-half IDs, marks `u2` not fully removed listing exactly
the dropped device's ID, produces no entry for `u3`, and leaves the map
holding exactly the kept devices with their original key infos. -/
theorem removeDevicesNotIn_three_user_semantics
    (u1 u2 u3 : UID) (k1a k1b k2a k2b k2c k3a : CryptPublicKey)
    (i1a i1b i2a i2b i2c i3a : TLFCryptKeyInfo)
    (h12 : u1 ≠ u2) (h13 : u1 ≠ u3) (h23 : u2 ≠ u3)
    (hba : k2b ≠ k2a) (hbc : k2b ≠ k2c) (hca : k2c ≠ k2a) :
    RemoveDevicesNotIn
      [(u1, [(k1a, i1a), (k1b, i1b)]),
       (u2, [(k2a, i2a), (k2b, i2b), (k2c, i2c)]),
       (u3, [(k3a, i3a)])]
      [(u2, [(k2a, true), (k2c, true)]), (u3, [(k3a, true)])] =
    ([(u2, [(k2a, i2a), (k2c, i2c)]), (u3, [(k3a, i3a)])],
     [(u1, ⟨true, [(k1a, [i1a.serverHalfID]), (k1b, [i1b.serverHalfID])]⟩),
      (u2, ⟨false, [(k2b, [i2b.serverHalfID])]⟩)]) := by
  simp [RemoveDevicesNotIn, lookupA, membD, removedHalves,
    h12, h13, Ne.symm h23, hba, hbc, hca]

/-- Witness for C1 at concrete users, devices and key infos. -/
theorem removeDevicesNotIn_three_user_semantics_witness :
    RemoveDevicesNotIn
      [(1, [(11, ⟨0, 101, 1⟩), (12, ⟨0, 102, 2⟩)]),
       (2, [(21, ⟨0, 201, 2⟩), (22, ⟨0, 202, 0⟩), (23, ⟨0, 203, 0⟩)]),
       (3, [(31, ⟨0, 301, 2⟩)])]
      [(2, [(21, true), (23, true)]), (3, [(31, true)])] =
    ([(2, [(21, ⟨0, 201, 2⟩), (23, ⟨0, 203, 0⟩)]), (3, [(31, ⟨0, 301, 2⟩)])],
     [(1, ⟨true, [(11, [101]), (12, [102])]⟩),
      (2, ⟨false, [(22, [202])]⟩)]) :=
  removeDevicesNotIn_three_user_semantics 1 2 3 11 12 21 22 23 31
    ⟨0, 101, 1⟩ ⟨0, 102, 2⟩ ⟨0, 201, 2⟩ ⟨0, 202, 0⟩ ⟨0, 203, 0⟩ ⟨0, 301, 2⟩
    (by decide) (by decide) (by decide) (by decide) (by decide) (by decide)

/-- Claim C2: a user `u1` with exactly one device, still listed in the updated
membership with an empty device set, gets a removal record with
`userRemoved = false` and keeps its map entry, now emptied; a user `u2`
wholly absent from the updated membership gets `userRemoved = true` and its
map entry is deleted. -/
theorem removeDevicesNotIn_last_device
    (u1 u2 : UID) (k1 k2 : CryptPublicKey) (i1 i2 : TLFCryptKeyInfo)
    (h12 : u1 ≠ u2) :
    RemoveDevicesNotIn [(u1, [(k1, i1)]), (u2, [(k2, i2)])] [(u1, [])] =
    ([(u1, [])],
     [(u1, ⟨false, [(k1, [i1.serverHalfID])]⟩),
      (u2, ⟨true, [(k2, [i2.serverHalfID])]⟩)]) := by
  simp [RemoveDevicesNotIn, lookupA, membD, removedHalves, Ne.symm h12]

/-- Witness for C2 at concrete users, devices and key infos. -/
theorem removeDevicesNotIn_last_device_witness :
    RemoveDevicesNotIn [(1, [(11, ⟨0, 101, 1⟩)]), (2, [(21, ⟨0, 201, 2⟩)])]
      [(1, [])] =
    ([(1, [])],
     [(1, ⟨false, [(11, [101])]⟩),
      (2, ⟨true, [(21, [201])]⟩)]) :=
  removeDevicesNotIn_last_device 1 2 11 21 ⟨0, 101, 1⟩ ⟨0, 201, 2⟩ (by decide)

theorem lookupA_append_left {β : Type} {l : List (Nat × β)} {k : Nat} {b : β}
    (h : lookupA l k = some b) (l2 : List (Nat × β)) :
    lookupA (l ++ l2) k = some b := by
  induction l with
  | nil => simp [lookupA] at h
  | cons hd t ih =>
    obtain ⟨a, v⟩ := hd
    by_cases hk : k = a
    · simpa [lookupA, hk] using h
    · simp only [lookupA, hk, if_false, List.cons_append] at h ⊢
      exact ih h

theorem lookupA_append_right {β : Type} {l : List (Nat × β)} {k : Nat}
    (h : lookupA l k = none) (l2 : List (Nat × β)) :
    lookupA (l ++ l2) k = lookupA l2 k := by
  induction l with
  | nil => simp
  | cons hd t ih =>
    obtain ⟨a, v⟩ := hd
    by_cases hk : k = a
    · simp [lookupA, hk] at h
    · simp only [lookupA, hk, if_false, List.cons_append] at h ⊢
      exact ih h

theorem lookupA_none_of_append {β : Type} {l l2 : List (Nat × β)} {k : Nat}
    (h : lookupA (l ++ l2) k = none) : lookupA l k = none := by
  induction l with
  | nil => simp [lookupA]
  | cons hd t ih =>
    obtain ⟨a, v⟩ := hd
    by_cases hk : k = a
    · simp [lookupA, hk] at h
    · simp only [lookupA, hk, if_false, List.cons_append] at h ⊢
      exact ih h

theorem fillLoop_extends (c : cryptoPure) (u : UID) (tk : TLFCryptKey)
    (ep : TLFEphemeralPrivateKey) (idx : Int) (targets : DevicePublicKeys) :
    ∀ (dkim : DeviceKeyInfoMapV3) (acc : DeviceKeyServerHalves),
    ∃ new, (fillInDeviceInfosLoop c u tk ep idx targets dkim acc).1 = dkim ++ new ∧
      ∀ p ∈ new, lookupA dkim p.1 = none := by
  induction targets with
  | nil =>
    intro dkim acc
    exact ⟨[], by simp [fillInDeviceInfosLoop], by simp⟩
  | cons hd rest ih =>
    intro dkim acc
    obtain ⟨k, b⟩ := hd
    cases hlk : lookupA dkim k with
    | some v =>
      have hred : fillInDeviceInfosLoop c u tk ep idx ((k, b) :: rest) dkim acc =
          fillInDeviceInfosLoop c u tk ep idx rest dkim acc := by
        simp [fillInDeviceInfosLoop, hlk]
      rw [hred]
      exact ih dkim acc
    | none =>
      rcases hsp : SplitTLFCryptKey c u tk ep idx k with ⟨info, sh, err⟩
      cases err with
      | some e =>
        have hred : fillInDeviceInfosLoop c u tk ep idx ((k, b) :: rest) dkim acc =
            (dkim, none, some e) := by
          simp [fillInDeviceInfosLoop, hlk, hsp]
        rw [hred]
        exact ⟨[], by simp, by simp⟩
      | none =>
        have hred : fillInDeviceInfosLoop c u tk ep idx ((k, b) :: rest) dkim acc =
            fillInDeviceInfosLoop c u tk ep idx rest (dkim ++ [(k, info)])
              (acc ++ [(k, sh)]) := by
          simp [fillInDeviceInfosLoop, hlk, hsp]
        rw [hred]
        obtain ⟨new, hmap, habs⟩ := ih (dkim ++ [(k, info)]) (acc ++ [(k, sh)])
        refine ⟨(k, info) :: new, by simpa using hmap, ?_⟩
        intro p hp
        rcases List.mem_cons.mp hp with hp | hp
        · simpa [hp] using hlk
        · exact lookupA_none_of_append (habs p hp)

theorem fillLoop_all_present (c : cryptoPure) (u : UID) (tk : TLFCryptKey)
    (ep : TLFEphemeralPrivateKey) (idx : Int) (targets : DevicePublicKeys) :
    ∀ (dkim : DeviceKeyInfoMapV3) (acc : DeviceKeyServerHalves),
    (∀ p ∈ targets, (lookupA dkim p.1).isSome) →
    fillInDeviceInfosLoop c u tk ep idx targets dkim acc = (dkim, some acc, none) := by
  induction targets with
  | nil =>
    intro dkim acc _
    simp [fillInDeviceInfosLoop]
  | cons hd rest ih =>
    intro dkim acc hall
    obtain ⟨k, b⟩ := hd
    have hk : (lookupA dkim k).isSome := hall (k, b) (List.mem_cons_self _ _)
    have hred : fillInDeviceInfosLoop c u tk ep idx ((k, b) :: rest) dkim acc =
        fillInDeviceInfosLoop c u tk ep idx rest dkim acc := by
      simp [fillInDeviceInfosLoop, hk]
    rw [hred]
    exact ih dkim acc (fun p hp => hall p (List.mem_cons_of_mem _ hp))

theorem fillLoop_success_present (c : cryptoPure) (u : UID) (tk : TLFCryptKey)
    (ep : TLFEphemeralPrivateKey) (idx : Int) (targets : DevicePublicKeys) :
    ∀ (dkim : DeviceKeyInfoMapV3) (acc : DeviceKeyServerHalves)
      (dkim2 : DeviceKeyInfoMapV3) (halves : DeviceKeyServerHalves),
    fillInDeviceInfosLoop c u tk ep idx targets dkim acc = (dkim2, some halves, none) →
    ∀ p ∈ targets, (lookupA dkim2 p.1).isSome := by
  induction targets with
  | nil =>
    intro dkim acc dkim2 halves _ p hp
    simp at hp
  | cons hd rest ih =>
    intro dkim acc dkim2 halves hrun p hp
    obtain ⟨k, b⟩ := hd
    cases hlk : lookupA dkim k with
    | some v =>
      have hred : fillInDeviceInfosLoop c u tk ep idx ((k, b) :: rest) dkim acc =
          fillInDeviceInfosLoop c u tk ep idx rest dkim acc := by
        simp [fillInDeviceInfosLoop, hlk]
      rw [hred] at hrun
      rcases List.mem_cons.mp hp with hpk | hpr
      · obtain ⟨new, hmap, _⟩ := fillLoop_extends c u tk ep idx rest dkim acc
        rw [hrun] at hmap
        have hmap2 : dkim2 = dkim ++ new := by simpa using hmap
        subst hpk
        rw [hmap2, lookupA_append_left hlk new]
        rfl
      · exact ih dkim acc dkim2 halves hrun p hpr
    | none =>
      rcases hsp : SplitTLFCryptKey c u tk ep idx k with ⟨info, sh, err⟩
      cases err with
      | some e =>
        have hred : fillInDeviceInfosLoop c u tk ep idx ((k, b) :: rest) dkim acc =
            (dkim, none, some e) := by
          simp [fillInDeviceInfosLoop, hlk, hsp]
        rw [hred] at hrun
        simp at hrun
      | none =>
        have hred : fillInDeviceInfosLoop c u tk ep idx ((k, b) :: rest) dkim acc =
            fillInDeviceInfosLoop c u tk ep idx rest (dkim ++ [(k, info)])
              (acc ++ [(k, sh)]) := by
          simp [fillInDeviceInfosLoop, hlk, hsp]
        rw [hred] at hrun
        rcases List.mem_cons.mp hp with hpk | hpr
        · have hk2 : lookupA (dkim ++ [(k, info)]) k = some info := by
            rw [lookupA_append_right hlk]
            simp [lookupA]
          obtain ⟨new, hmap, _⟩ :=
            fillLoop_extends c u tk ep idx rest (dkim ++ [(k, info)]) (acc ++ [(k, sh)])
          rw [hrun] at hmap
          have hmap2 : dkim2 = dkim ++ [(k, info)] ++ new := by simpa using hmap
          subst hpk
          rw [hmap2, lookupA_append_left hk2 new]
          rfl
        · exact ih (dkim ++ [(k, info)]) (acc ++ [(k, sh)]) dkim2 halves hrun p hpr

/-- Claim C3: `FillInDeviceInfos` splits the key only for target devices
absent from the map (the updated map is the original extended by entries for
previously absent devices, with existing entries untouched), so a second call
with the same target set leaves the map unchanged and returns an empty set of
new server halves with no error. -/
theorem fillInDeviceInfos_idempotent
    (crypto : cryptoPure) (uid : UID) (tlfCryptKey : TLFCryptKey)
    (ePrivKey : TLFEphemeralPrivateKey) (ePubIndex : Int)
    (dkim dkim2 : DeviceKeyInfoMapV3) (targets : DevicePublicKeys)
    (halves : DeviceKeyServerHalves)
    (hfirst : FillInDeviceInfos dkim crypto uid tlfCryptKey ePrivKey ePubIndex targets =
      (dkim2, some halves, none)) :
    (∃ newEntries, dkim2 = dkim ++ newEntries ∧
      ∀ p ∈ newEntries, lookupA dkim p.1 = none) ∧
    FillInDeviceInfos dkim2 crypto uid tlfCryptKey ePrivKey ePubIndex targets =
      (dkim2, some [], none) := by
  unfold FillInDeviceInfos at hfirst ⊢
  constructor
  · obtain ⟨new, hmap, habs⟩ :=
      fillLoop_extends crypto uid tlfCryptKey ePrivKey ePubIndex targets dkim []
    rw [hfirst] at hmap
    exact ⟨new, hmap, habs⟩
  · exact fillLoop_all_present crypto uid tlfCryptKey ePrivKey ePubIndex targets dkim2 []
      (fillLoop_success_present crypto uid tlfCryptKey ePrivKey ePubIndex targets
        dkim [] dkim2 halves hfirst)

/-- Witness for C3: a first call on an empty map with one target device,
followed by the second call on the result. -/
theorem fillInDeviceInfos_idempotent_witness :
    ((∃ newEntries, [(1, (⟨1006, 1005, 0⟩ : TLFCryptKeyInfo))] = [] ++ newEntries ∧
      ∀ p ∈ newEntries, lookupA ([] : DeviceKeyInfoMapV3) p.1 = none) ∧
    FillInDeviceInfos [(1, ⟨1006, 1005, 0⟩)] cryptoOK 0 3 0 0 [(1, true)] =
      ([(1, ⟨1006, 1005, 0⟩)], some [], none)) :=
  fillInDeviceInfos_idempotent cryptoOK 0 3 0 0 [] [(1, ⟨1006, 1005, 0⟩)]
    [(1, true)] [(1, 5)] (by rfl)

/-- Claim C4: a successful `SplitTLFCryptKey` returns the freshly drawn server
half and a `TLFCryptKeyInfo` carrying the encryption of the client half
`ServerHalf ⊕ ContentKey`, the derived server-half ID, and the supplied
ephemeral key index; the client half stays a 32-byte value and XOR-ing it
with the server half recovers exactly the original content key. -/
theorem splitTLFCryptKey_roundtrip
    (crypto : cryptoPure) (uid : UID) (tlfCryptKey : TLFCryptKey)
    (ePrivKey : TLFEphemeralPrivateKey) (ePubIndex : Int) (pubKey : CryptPublicKey)
    (serverHalf : TLFCryptKeyServerHalf) (enc : EncryptedTLFCryptKeyClientHalf)
    (shid : TLFCryptKeyServerHalfID)
    (hkey : tlfCryptKey < 2 ^ 256) (hhalf : serverHalf < 2 ^ 256)
    (hrand : crypto.makeRandomTLFCryptKeyServerHalf = .ok serverHalf)
    (henc : crypto.encryptTLFCryptKeyClientHalf ePrivKey pubKey
      (MaskTLFCryptKey serverHalf tlfCryptKey) = .ok enc)
    (hid : crypto.getTLFCryptKeyServerHalfID uid pubKey serverHalf = .ok shid) :
    SplitTLFCryptKey crypto uid tlfCryptKey ePrivKey ePubIndex pubKey =
      (⟨enc, shid, ePubIndex⟩, serverHalf, none) ∧
    MaskTLFCryptKey serverHalf tlfCryptKey < 2 ^ 256 ∧
    UnmaskTLFCryptKey serverHalf (MaskTLFCryptKey serverHalf tlfCryptKey) =
      tlfCryptKey := by
  refine ⟨?_, ?_, ?_⟩
  · simp [SplitTLFCryptKey, hrand, henc, hid]
  · exact Nat.bitwise_lt hhalf hkey
  · exact Nat.xor_cancel_left serverHalf tlfCryptKey

/-- Witness for C4 at a concrete crypto implementation, content key 3 and
server half 5. -/
theorem splitTLFCryptKey_roundtrip_witness :
    SplitTLFCryptKey cryptoOK 0 3 0 7 1 = (⟨1006, 1005, 7⟩, 5, none) ∧
    MaskTLFCryptKey 5 3 < 2 ^ 256 ∧
    UnmaskTLFCryptKey 5 (MaskTLFCryptKey 5 3) = 3 :=
  splitTLFCryptKey_roundtrip cryptoOK 0 3 0 7 1 5 1006 1005
    (by norm_num) (by norm_num) rfl rfl rfl

theorem fillLoop_rand_error (c : cryptoPure) (u : UID) (tk : TLFCryptKey)
    (ep : TLFEphemeralPrivateKey) (idx : Int) (e : Err)
    (hrand : c.makeRandomTLFCryptKeyServerHalf = .error e)
    (targets : DevicePublicKeys) :
    ∀ (dkim : DeviceKeyInfoMapV3) (acc : DeviceKeyServerHalves),
    (∃ p ∈ targets, lookupA dkim p.1 = none) →
    fillInDeviceInfosLoop c u tk ep idx targets dkim acc = (dkim, none, some e) := by
  induction targets with
  | nil =>
    intro dkim acc habs
    simp at habs
  | cons hd rest ih =>
    intro dkim acc habs
    obtain ⟨k, b⟩ := hd
    cases hlk : lookupA dkim k with
    | none =>
      simp [fillInDeviceInfosLoop, hlk, SplitTLFCryptKey, hrand]
    | some v =>
      have hred : fillInDeviceInfosLoop c u tk ep idx ((k, b) :: rest) dkim acc =
          fillInDeviceInfosLoop c u tk ep idx rest dkim acc := by
        simp [fillInDeviceInfosLoop, hlk]
      rw [hred]
      obtain ⟨p, hp, hnone⟩ := habs
      rcases List.mem_cons.mp hp with hpk | hpr
      · rw [hpk] at hnone
        rw [hnone] at hlk
        exact absurd hlk (by simp)
      · exact ih dkim acc ⟨p, hpr, hnone⟩

theorem fillLoop_first_absent_error (c : cryptoPure) (u : UID) (tk : TLFCryptKey)
    (ep : TLFEphemeralPrivateKey) (idx : Int) :
    ∀ (pre : DevicePublicKeys) (k : CryptPublicKey) (b : Bool)
      (post : DevicePublicKeys) (dkim : DeviceKeyInfoMapV3)
      (acc : DeviceKeyServerHalves) (info0 : TLFCryptKeyInfo)
      (sh0 : TLFCryptKeyServerHalf) (e : Err),
    (∀ p ∈ pre, (lookupA dkim p.1).isSome) →
    lookupA dkim k = none →
    SplitTLFCryptKey c u tk ep idx k = (info0, sh0, some e) →
    fillInDeviceInfosLoop c u tk ep idx (pre ++ (k, b) :: post) dkim acc =
      (dkim, none, some e) := by
  intro pre
  induction pre with
  | nil =>
    intro k b post dkim acc info0 sh0 e _ hk hsp
    simp [fillInDeviceInfosLoop, hk, hsp]
  | cons hd rest ih =>
    intro k b post dkim acc info0 sh0 e hpre hk hsp
    obtain ⟨k1, b1⟩ := hd
    have h1 : (lookupA dkim k1).isSome := hpre (k1, b1) (List.mem_cons_self _ _)
    have hred : fillInDeviceInfosLoop c u tk ep idx
        (((k1, b1) :: rest) ++ (k, b) :: post) dkim acc =
        fillInDeviceInfosLoop c u tk ep idx (rest ++ (k, b) :: post) dkim acc := by
      simp [fillInDeviceInfosLoop, h1]
    rw [hred]
    exact ih k b post dkim acc info0 sh0 e
      (fun p hp => hpre p (List.mem_cons_of_mem _ hp)) hk hsp

/-- Claim C5: each underlying crypto failure (random server-half generation,
client-half encryption, server-half-ID derivation) makes `SplitTLFCryptKey`
return that same error together with the zero key info and zero server half;
and `FillInDeviceInfos` propagates the error of the first target device absent
from the map whose split fails — whichever of the three crypto steps caused
it — returning a nil server-half map and the map unchanged. -/
theorem cryptoFailure_propagation
    (crypto : cryptoPure) (uid : UID) (tlfCryptKey : TLFCryptKey)
    (ePrivKey : TLFEphemeralPrivateKey) (ePubIndex : Int) (pubKey : CryptPublicKey)
    (e : Err) (dkim : DeviceKeyInfoMapV3) (targets : DevicePublicKeys) :
    (crypto.makeRandomTLFCryptKeyServerHalf = .error e →
      SplitTLFCryptKey crypto uid tlfCryptKey ePrivKey ePubIndex pubKey =
        (emptyTLFCryptKeyInfo, 0, some e)) ∧
    (∀ serverHalf, crypto.makeRandomTLFCryptKeyServerHalf = .ok serverHalf →
      crypto.encryptTLFCryptKeyClientHalf ePrivKey pubKey
        (MaskTLFCryptKey serverHalf tlfCryptKey) = .error e →
      SplitTLFCryptKey crypto uid tlfCryptKey ePrivKey ePubIndex pubKey =
        (emptyTLFCryptKeyInfo, 0, some e)) ∧
    (∀ serverHalf enc, crypto.makeRandomTLFCryptKeyServerHalf = .ok serverHalf →
      crypto.encryptTLFCryptKeyClientHalf ePrivKey pubKey
        (MaskTLFCryptKey serverHalf tlfCryptKey) = .ok enc →
      crypto.getTLFCryptKeyServerHalfID uid pubKey serverHalf = .error e →
      SplitTLFCryptKey crypto uid tlfCryptKey ePrivKey ePubIndex pubKey =
        (emptyTLFCryptKeyInfo, 0, some e)) ∧
    (crypto.makeRandomTLFCryptKeyServerHalf = .error e →
      (∃ p ∈ targets, lookupA dkim p.1 = none) →
      FillInDeviceInfos dkim crypto uid tlfCryptKey ePrivKey ePubIndex targets =
        (dkim, none, some e)) ∧
    (∀ pre post (k : CryptPublicKey) (b : Bool) info0 sh0,
      targets = pre ++ (k, b) :: post →
      (∀ p ∈ pre, (lookupA dkim p.1).isSome) →
      lookupA dkim k = none →
      SplitTLFCryptKey crypto uid tlfCryptKey ePrivKey ePubIndex k =
        (info0, sh0, some e) →
      FillInDeviceInfos dkim crypto uid tlfCryptKey ePrivKey ePubIndex targets =
        (dkim, none, some e)) ∧
    (∀ pre post (k : CryptPublicKey) (b : Bool) serverHalf,
      targets = pre ++ (k, b) :: post →
      (∀ p ∈ pre, (lookupA dkim p.1).isSome) →
      lookupA dkim k = none →
      crypto.makeRandomTLFCryptKeyServerHalf = .ok serverHalf →
      crypto.encryptTLFCryptKeyClientHalf ePrivKey k
        (MaskTLFCryptKey serverHalf tlfCryptKey) = .error e →
      FillInDeviceInfos dkim crypto uid tlfCryptKey ePrivKey ePubIndex targets =
        (dkim, none, some e)) ∧
    (∀ pre post (k : CryptPublicKey) (b : Bool) serverHalf enc,
      targets = pre ++ (k, b) :: post →
      (∀ p ∈ pre, (lookupA dkim p.1).isSome) →
      lookupA dkim k = none →
      crypto.makeRandomTLFCryptKeyServerHalf = .ok serverHalf →
      crypto.encryptTLFCryptKeyClientHalf ePrivKey k
        (MaskTLFCryptKey serverHalf tlfCryptKey) = .ok enc →
      crypto.getTLFCryptKeyServerHalfID uid k serverHalf = .error e →
      FillInDeviceInfos dkim crypto uid tlfCryptKey ePrivKey ePubIndex targets =
        (dkim, none, some e)) := by
  refine ⟨?_, ?_, ?_, ?_, ?_, ?_, ?_⟩
  · intro hrand
    simp [SplitTLFCryptKey, hrand]
  · intro serverHalf hrand henc
    simp [SplitTLFCryptKey, hrand, henc]
  · intro serverHalf enc hrand henc hid
    simp [SplitTLFCryptKey, hrand, henc, hid]
  · intro hrand habs
    exact fillLoop_rand_error crypto uid tlfCryptKey ePrivKey ePubIndex e hrand
      targets dkim [] habs
  · intro pre post k b info0 sh0 htar hpre hk hsp
    rw [htar]
    exact fillLoop_first_absent_error crypto uid tlfCryptKey ePrivKey ePubIndex
      pre k b post dkim [] info0 sh0 e hpre hk hsp
  · intro pre post k b serverHalf htar hpre hk hrand henc
    have hsp : SplitTLFCryptKey crypto uid tlfCryptKey ePrivKey ePubIndex k =
        (emptyTLFCryptKeyInfo, 0, some e) := by
      simp [SplitTLFCryptKey, hrand, henc]
    rw [htar]
    exact fillLoop_first_absent_error crypto uid tlfCryptKey ePrivKey ePubIndex
      pre k b post dkim [] emptyTLFCryptKeyInfo 0 e hpre hk hsp
  · intro pre post k b serverHalf enc htar hpre hk hrand henc hid
    have hsp : SplitTLFCryptKey crypto uid tlfCryptKey ePrivKey ePubIndex k =
        (emptyTLFCryptKeyInfo, 0, some e) := by
      simp [SplitTLFCryptKey, hrand, henc, hid]
    rw [htar]
    exact fillLoop_first_absent_error crypto uid tlfCryptKey ePrivKey ePubIndex
      pre k b post dkim [] emptyTLFCryptKeyInfo 0 e hpre hk hsp

/-- Witness for C5: each failing crypto implementation propagates its error
code through `SplitTLFCryptKey`, and `FillInDeviceInfos` propagates each of
the three crypto failures of the first absent target device with a nil
server-half map, also after skipping a present device. -/
theorem cryptoFailure_propagation_witness :
    SplitTLFCryptKey cryptoRandFail 0 3 0 0 1 = (emptyTLFCryptKeyInfo, 0, some 42) ∧
    SplitTLFCryptKey cryptoEncFail 0 3 0 0 1 = (emptyTLFCryptKeyInfo, 0, some 43) ∧
    SplitTLFCryptKey cryptoServerHalfIDFail 0 3 0 0 1 =
      (emptyTLFCryptKeyInfo, 0, some 44) ∧
    FillInDeviceInfos [] cryptoRandFail 0 3 0 0 [(1, true)] = ([], none, some 42) ∧
    FillInDeviceInfos [(2, ⟨9, 8, 0⟩)] cryptoEncFail 0 3 0 0
      [(2, true), (1, true)] = ([(2, ⟨9, 8, 0⟩)], none, some 43) ∧
    FillInDeviceInfos [] cryptoEncFail 0 3 0 0 [(1, true)] = ([], none, some 43) ∧
    FillInDeviceInfos [] cryptoServerHalfIDFail 0 3 0 0 [(1, true)] =
      ([], none, some 44) :=
  ⟨(cryptoFailure_propagation cryptoRandFail 0 3 0 0 1 42 [] [(1, true)]).1 rfl,
   (cryptoFailure_propagation cryptoEncFail 0 3 0 0 1 43 [] [(1, true)]).2.1 5 rfl rfl,
   (cryptoFailure_propagation cryptoServerHalfIDFail 0 3 0 0 1 44 []
     [(1, true)]).2.2.1 5 1006 rfl rfl rfl,
   (cryptoFailure_propagation cryptoRandFail 0 3 0 0 1 42 [] [(1, true)]).2.2.2.1 rfl
     ⟨(1, true), by simp, rfl⟩,
   (cryptoFailure_propagation cryptoEncFail 0 3 0 0 1 43 [(2, ⟨9, 8, 0⟩)]
     [(2, true), (1, true)]).2.2.2.2.1 [(2, true)] [] 1 true
     emptyTLFCryptKeyInfo 0 rfl (by decide) rfl rfl,
   (cryptoFailure_propagation cryptoEncFail 0 3 0 0 1 43 []
     [(1, true)]).2.2.2.2.2.1 [] [] 1 true 5 rfl (by simp) rfl rfl rfl,
   (cryptoFailure_propagation cryptoServerHalfIDFail 0 3 0 0 1 44 []
     [(1, true)]).2.2.2.2.2.2 [] [] 1 true 5 1006 rfl (by simp) rfl rfl rfl rfl⟩

/-- Claim C6: computing the bundle identifier of a reader bundle with a nil
device map and of one with an explicitly empty device map succeeds and yields
the same identifier, while a writer bundle with zero device entries (nil or
explicitly empty) fails identifier computation. -/
theorem bundleID_nil_vs_empty (eph unk : List Nat) (pk ehist : Nat) :
    MakeTLFReaderKeyBundleID ⟨.nilMap, eph, unk⟩ =
      MakeTLFReaderKeyBundleID ⟨.mkMap [], eph, unk⟩ ∧
    (∃ bundleID, MakeTLFReaderKeyBundleID ⟨.nilMap, eph, unk⟩ = .ok bundleID) ∧
    MakeTLFWriterKeyBundleID ⟨.nilMap, pk, eph, ehist, unk⟩ = .error 1 ∧
    MakeTLFWriterKeyBundleID ⟨.mkMap [], pk, eph, ehist, unk⟩ = .error 1 :=
  ⟨rfl, ⟨encodeRKB ⟨.nilMap, eph, unk⟩, rfl⟩, rfl, rfl⟩

/-- Counterexample for C7: at version 4, one above the latest supported
version, `MakeInitialBareRootMetadata` panics instead of returning an
`UnsupportedVersion` error value. -/
theorem makeInitialBareRootMetadata_above_range_panics :
    MakeInitialBareRootMetadata 4 0 0 = .panicked invalidMetadataVersionPanicMsg ∧
    (MakeInitialBareRootMetadata 4 0 0).isErrored = false := by
  constructor
  · rfl
  · rfl

/-- Claim C7 as amended: a version below the first valid one yields the typed
`InvalidMetadataVersionError` value; a version above the latest supported one
panics rather than returning an error; versions inside the range construct
metadata of the matching format (V2 below the segregated version, V3 at it). -/
theorem makeInitialBareRootMetadata_version_dispatch :
    (∀ (ver : MetadataVer) (tlfID h : Nat), ver < FirstValidMetadataVer →
      MakeInitialBareRootMetadata ver tlfID h = .errored ⟨tlfID, ver⟩) ∧
    (∀ (ver : MetadataVer) (tlfID h : Nat), SegregatedKeyBundlesVer < ver →
      MakeInitialBareRootMetadata ver tlfID h =
        .panicked invalidMetadataVersionPanicMsg) ∧
    (∀ (ver : MetadataVer) (tlfID h : Nat), FirstValidMetadataVer ≤ ver →
      ver < SegregatedKeyBundlesVer →
      MakeInitialBareRootMetadata ver tlfID h = .made2 tlfID h) ∧
    (∀ (tlfID h : Nat),
      MakeInitialBareRootMetadata SegregatedKeyBundlesVer tlfID h =
        .made3 tlfID h) := by
  refine ⟨?_, ?_, ?_, ?_⟩
  · intro ver tlfID h hlt
    simp [MakeInitialBareRootMetadata, hlt]
  · intro ver tlfID h hgt
    have hgt3 : (3 : Int) < ver := hgt
    have h1 : ¬ ver < FirstValidMetadataVer := by
      show ¬ ver < (0 : Int)
      exact not_lt.mpr (le_of_lt (lt_trans (by norm_num) hgt3))
    simp [MakeInitialBareRootMetadata, h1, hgt]
  · intro ver tlfID h hge hlt
    have h1 : ¬ ver < FirstValidMetadataVer := not_lt.mpr hge
    have hlt3 : ver < (3 : Int) := hlt
    have h2 : ¬ SegregatedKeyBundlesVer < ver := by
      show ¬ (3 : Int) < ver
      exact not_lt.mpr (le_of_lt hlt3)
    simp [MakeInitialBareRootMetadata, h1, h2, hlt]
  · intro tlfID h
    simp [MakeInitialBareRootMetadata, FirstValidMetadataVer, SegregatedKeyBundlesVer]

/-- Witness for C7 as amended, at versions -1, 4, 1 and 3. -/
theorem makeInitialBareRootMetadata_version_dispatch_witness :
    MakeInitialBareRootMetadata (-1) 0 0 = .errored ⟨0, -1⟩ ∧
    MakeInitialBareRootMetadata 4 0 0 = .panicked invalidMetadataVersionPanicMsg ∧
    MakeInitialBareRootMetadata 1 0 0 = .made2 0 0 ∧
    MakeInitialBareRootMetadata 3 0 0 = .made3 0 0 :=
  ⟨makeInitialBareRootMetadata_version_dispatch.1 (-1) 0 0 (by decide),
   makeInitialBareRootMetadata_version_dispatch.2.1 4 0 0 (by decide),
   makeInitialBareRootMetadata_version_dispatch.2.2.1 1 0 0 (by decide) (by decide),
   makeInitialBareRootMetadata_version_dispatch.2.2.2 0 0⟩

/-- Claim C8: `MakeSuccessorCopy` returns deep copies of the writer and
reader bundles with both dirty flags cleared to false regardless of their
original values, whereas `DeepCopy` preserves the bundles and both flag
values unchanged. -/
theorem makeSuccessorCopy_clears_flags (extra : ExtraMetadataV3) :
    extra.MakeSuccessorCopy.wkb = extra.wkb ∧
    extra.MakeSuccessorCopy.rkb = extra.rkb ∧
    extra.MakeSuccessorCopy.wkbNew = false ∧
    extra.MakeSuccessorCopy.rkbNew = false ∧
    extra.DeepCopy.wkb = extra.wkb ∧
    extra.DeepCopy.rkb = extra.rkb ∧
    extra.DeepCopy.wkbNew = extra.wkbNew ∧
    extra.DeepCopy.rkbNew = extra.rkbNew :=
  ⟨rfl, rfl, rfl, rfl, rfl, rfl, rfl, rfl⟩

theorem updateNewFoldl_keeps_true (l : List (Bool × Bool)) :
    ∀ (extra : ExtraMetadataV3), extra.wkbNew = true → extra.rkbNew = true →
    (l.foldl (fun a p => a.UpdateNew p.1 p.2) extra).wkbNew = true ∧
    (l.foldl (fun a p => a.UpdateNew p.1 p.2) extra).rkbNew = true := by
  induction l with
  | nil =>
    intro extra hw hr
    exact ⟨hw, hr⟩
  | cons hd t ih =>
    intro extra hw hr
    exact ih (extra.UpdateNew hd.1 hd.2)
      (by simp [ExtraMetadataV3.UpdateNew, hw]) (by simp [ExtraMetadataV3.UpdateNew, hr])

/-- Claim C10: `UpdateNew` ORs the given booleans into the dirty flags, so the
flags are monotone under any sequence of `UpdateNew` calls (once set they are
never cleared by `UpdateNew`), and only `MakeSuccessorCopy` clears them. -/
theorem updateNew_or_monotone (extra : ExtraMetadataV3) (w r : Bool)
    (l : List (Bool × Bool)) :
    (extra.UpdateNew w r).wkbNew = (extra.wkbNew || w) ∧
    (extra.UpdateNew w r).rkbNew = (extra.rkbNew || r) ∧
    (l.foldl (fun a p => a.UpdateNew p.1 p.2) (extra.UpdateNew true true)).wkbNew =
      true ∧
    (l.foldl (fun a p => a.UpdateNew p.1 p.2) (extra.UpdateNew true true)).rkbNew =
      true ∧
    (extra.UpdateNew w r).MakeSuccessorCopy.wkbNew = false ∧
    (extra.UpdateNew w r).MakeSuccessorCopy.rkbNew = false := by
  refine ⟨rfl, rfl, ?_, ?_, rfl, rfl⟩
  · exact (updateNewFoldl_keeps_true l (extra.UpdateNew true true)
      (by simp [ExtraMetadataV3.UpdateNew]) (by simp [ExtraMetadataV3.UpdateNew])).1
  · exact (updateNewFoldl_keeps_true l (extra.UpdateNew true true)
      (by simp [ExtraMetadataV3.UpdateNew]) (by simp [ExtraMetadataV3.UpdateNew])).2

theorem lookupA_eq_none_iff {β : Type} (l : List (Nat × β)) (k : Nat) :
    lookupA l k = none ↔ k ∉ l.map Prod.fst := by
  induction l with
  | nil => simp [lookupA]
  | cons hd t ih =>
    obtain ⟨a, v⟩ := hd
    by_cases hk : k = a
    · simp [lookupA, hk]
    · simp [lookupA, hk, ih]

theorem removeDevicesNotIn_removal_keys (upd : UserDevicePublicKeys) :
    ∀ (udkim : UserDeviceKeyInfoMapV3) (uid : UID), lookupA udkim uid = none →
    lookupA (RemoveDevicesNotIn udkim upd).2 uid = none := by
  intro udkim
  induction udkim with
  | nil =>
    intro uid _
    simp [RemoveDevicesNotIn, lookupA]
  | cons hd rest ih =>
    intro uid hnone
    obtain ⟨u, d⟩ := hd
    have hne : uid ≠ u := by
      intro he
      simp [lookupA, he] at hnone
    have hrest : lookupA rest uid = none := by
      simpa [lookupA, hne] using hnone
    cases hlk : lookupA upd u with
    | some dk =>
      by_cases hemp : (d.filter (fun p => ! membD dk p.1)).isEmpty
      · have h2 : (RemoveDevicesNotIn ((u, d) :: rest) upd).2 =
            (RemoveDevicesNotIn rest upd).2 := by
          simp [RemoveDevicesNotIn, hlk, hemp]
        rw [h2]
        exact ih uid hrest
      · have h2 : (RemoveDevicesNotIn ((u, d) :: rest) upd).2 =
            (u, ⟨false, removedHalves (d.filter (fun p => ! membD dk p.1))⟩) ::
              (RemoveDevicesNotIn rest upd).2 := by
          simp [RemoveDevicesNotIn, hlk, hemp]
        rw [h2]
        simpa [lookupA, hne] using ih uid hrest
    | none =>
      have h2 : (RemoveDevicesNotIn ((u, d) :: rest) upd).2 =
          (u, ⟨true, removedHalves d⟩) :: (RemoveDevicesNotIn rest upd).2 := by
        simp [RemoveDevicesNotIn, hlk]
      rw [h2]
      simpa [lookupA, hne] using ih uid hrest

theorem removeDevicesNotIn_map_spec (upd : UserDevicePublicKeys) :
    ∀ (udkim : UserDeviceKeyInfoMapV3) (uid : UID) (dkim2 : DeviceKeyInfoMapV3),
    (uid, dkim2) ∈ (RemoveDevicesNotIn udkim upd).1 →
    ∃ dkim deviceKeys, (uid, dkim) ∈ udkim ∧ lookupA upd uid = some deviceKeys ∧
      dkim2 = dkim.filter (fun p => membD deviceKeys p.1) := by
  intro udkim
  induction udkim with
  | nil =>
    intro uid dkim2 h
    simp [RemoveDevicesNotIn] at h
  | cons hd rest ih =>
    intro uid dkim2 hmem
    obtain ⟨u, d⟩ := hd
    cases hlk : lookupA upd u with
    | some dk =>
      have h1 : (RemoveDevicesNotIn ((u, d) :: rest) upd).1 =
          (u, d.filter (fun p => membD dk p.1)) :: (RemoveDevicesNotIn rest upd).1 := by
        by_cases hemp : (d.filter (fun p => ! membD dk p.1)).isEmpty
        · simp [RemoveDevicesNotIn, hlk, hemp]
        · simp [RemoveDevicesNotIn, hlk, hemp]
      rw [h1] at hmem
      rcases List.mem_cons.mp hmem with he | hm
      · obtain ⟨heu, hed⟩ := Prod.ext_iff.mp he
        subst heu
        exact ⟨d, dk, List.mem_cons_self _ _, hlk, hed⟩
      · obtain ⟨dkim, dk2, hmem2, hlk2, hfil⟩ := ih uid dkim2 hm
        exact ⟨dkim, dk2, List.mem_cons_of_mem _ hmem2, hlk2, hfil⟩
    | none =>
      have h1 : (RemoveDevicesNotIn ((u, d) :: rest) upd).1 =
          (RemoveDevicesNotIn rest upd).1 := by
        simp [RemoveDevicesNotIn, hlk]
      rw [h1] at hmem
      obtain ⟨dkim, dk2, hmem2, hlk2, hfil⟩ := ih uid dkim2 hmem
      exact ⟨dkim, dk2, List.mem_cons_of_mem _ hmem2, hlk2, hfil⟩

theorem removeDevicesNotIn_clean_user (upd : UserDevicePublicKeys) :
    ∀ (udkim : UserDeviceKeyInfoMapV3), keysNodup udkim →
    ∀ (uid : UID) (dkim : DeviceKeyInfoMapV3) (deviceKeys : DevicePublicKeys),
    (uid, dkim) ∈ udkim → lookupA upd uid = some deviceKeys →
    (∀ p ∈ dkim, membD deviceKeys p.1 = true) →
    lookupA (RemoveDevicesNotIn udkim upd).2 uid = none := by
  intro udkim
  induction udkim with
  | nil =>
    intro _ uid dkim dk h
    simp at h
  | cons hd rest ih =>
    intro hnod uid dkim dk hmem hlk hall
    obtain ⟨u, d⟩ := hd
    have hnods : (u :: rest.map Prod.fst).Nodup := hnod
    have hnodc := List.nodup_cons.mp hnods
    have hnod2 : keysNodup rest := hnodc.2
    rcases List.mem_cons.mp hmem with he | hm
    · obtain ⟨heu, hed⟩ := Prod.ext_iff.mp he
      subst heu
      subst hed
      have hemp : dkim.filter (fun p => ! membD dk p.1) = [] := by
        rw [List.filter_eq_nil_iff]
        intro a ha
        simp [hall a ha]
      have h2 : (RemoveDevicesNotIn ((uid, dkim) :: rest) upd).2 =
          (RemoveDevicesNotIn rest upd).2 := by
        simp [RemoveDevicesNotIn, hlk, hemp]
      rw [h2]
      have hrest : lookupA rest uid = none := (lookupA_eq_none_iff rest uid).mpr hnodc.1
      exact removeDevicesNotIn_removal_keys upd rest uid hrest
    · have hne : uid ≠ u := by
        intro he
        subst he
        exact hnodc.1 (List.mem_map_of_mem Prod.fst hm)
      cases hlku : lookupA upd u with
      | some dku =>
        by_cases hemp : (d.filter (fun p => ! membD dku p.1)).isEmpty
        · have h2 : (RemoveDevicesNotIn ((u, d) :: rest) upd).2 =
              (RemoveDevicesNotIn rest upd).2 := by
            simp [RemoveDevicesNotIn, hlku, hemp]
          rw [h2]
          exact ih hnod2 uid dkim dk hm hlk hall
        · have h2 : (RemoveDevicesNotIn ((u, d) :: rest) upd).2 =
              (u, ⟨false, removedHalves (d.filter (fun p => ! membD dku p.1))⟩) ::
                (RemoveDevicesNotIn rest upd).2 := by
            simp [RemoveDevicesNotIn, hlku, hemp]
          rw [h2]
          simpa [lookupA, hne] using ih hnod2 uid dkim dk hm hlk hall
      | none =>
        have h2 : (RemoveDevicesNotIn ((u, d) :: rest) upd).2 =
            (u, ⟨true, removedHalves d⟩) :: (RemoveDevicesNotIn rest upd).2 := by
          simp [RemoveDevicesNotIn, hlku]
        rw [h2]
        simpa [lookupA, hne] using ih hnod2 uid dkim dk hm hlk hall

/-- Claim C9: after `RemoveDevicesNotIn`, every user remaining in the map is
present in the updated membership and its surviving entries are exactly the
allowed ones from its original entry; every surviving device key is in that
user's allowed set with its `TLFCryptKeyInfo` unchanged; and a user present in
the updated membership none of whose devices were removed produces no entry in
the returned removal info. -/
theorem removeDevicesNotIn_invariants (udkim : UserDeviceKeyInfoMapV3)
    (upd : UserDevicePublicKeys) :
    (∀ uid dkim2, (uid, dkim2) ∈ (RemoveDevicesNotIn udkim upd).1 →
      ∃ dkim deviceKeys, (uid, dkim) ∈ udkim ∧
        lookupA upd uid = some deviceKeys ∧
        dkim2 = dkim.filter (fun p => membD deviceKeys p.1)) ∧
    (∀ uid dkim2 k info, (uid, dkim2) ∈ (RemoveDevicesNotIn udkim upd).1 →
      (k, info) ∈ dkim2 →
      ∃ dkim deviceKeys, (uid, dkim) ∈ udkim ∧
        lookupA upd uid = some deviceKeys ∧
        membD deviceKeys k = true ∧ (k, info) ∈ dkim) ∧
    (keysNodup udkim →
      ∀ uid dkim deviceKeys, (uid, dkim) ∈ udkim →
      lookupA upd uid = some deviceKeys →
      (∀ p ∈ dkim, membD deviceKeys p.1 = true) →
      lookupA (RemoveDevicesNotIn udkim upd).2 uid = none) := by
  refine ⟨removeDevicesNotIn_map_spec upd udkim, ?_, ?_⟩
  · intro uid dkim2 k info hmem hkin
    obtain ⟨dkim, dk, hm, hl, hfil⟩ := removeDevicesNotIn_map_spec upd udkim uid dkim2 hmem
    rw [hfil] at hkin
    obtain ⟨hin, hp⟩ := List.mem_filter.mp hkin
    exact ⟨dkim, dk, hm, hl, hp, hin⟩
  · intro hnod uid dkim dk hm hl hall
    exact removeDevicesNotIn_clean_user upd udkim hnod uid dkim dk hm hl hall

/-- Witness for C9 on a two-user map where user 1 keeps its only device and
user 2 is wholly absent from the updated membership. -/
theorem removeDevicesNotIn_invariants_witness :
    (∃ dkim deviceKeys,
      ((1 : UID), dkim) ∈
        ([(1, [(11, (⟨0, 101, 1⟩ : TLFCryptKeyInfo))]),
          (2, [(21, ⟨0, 201, 2⟩)])] : UserDeviceKeyInfoMapV3) ∧
      lookupA ([(1, [(11, true)])] : UserDevicePublicKeys) 1 = some deviceKeys ∧
      [(11, (⟨0, 101, 1⟩ : TLFCryptKeyInfo))] =
        dkim.filter (fun p => membD deviceKeys p.1)) ∧
    (∃ dkim deviceKeys,
      ((1 : UID), dkim) ∈
        ([(1, [(11, (⟨0, 101, 1⟩ : TLFCryptKeyInfo))]),
          (2, [(21, ⟨0, 201, 2⟩)])] : UserDeviceKeyInfoMapV3) ∧
      lookupA ([(1, [(11, true)])] : UserDevicePublicKeys) 1 = some deviceKeys ∧
      membD deviceKeys 11 = true ∧
      ((11 : CryptPublicKey), (⟨0, 101, 1⟩ : TLFCryptKeyInfo)) ∈ dkim) ∧
    lookupA (RemoveDevicesNotIn
      [(1, [(11, ⟨0, 101, 1⟩)]), (2, [(21, ⟨0, 201, 2⟩)])]
      [(1, [(11, true)])]).2 1 = none :=
  ⟨(removeDevicesNotIn_invariants
      [(1, [(11, ⟨0, 101, 1⟩)]), (2, [(21, ⟨0, 201, 2⟩)])]
      [(1, [(11, true)])]).1 1 [(11, ⟨0, 101, 1⟩)] (by decide),
   (removeDevicesNotIn_invariants
      [(1, [(11, ⟨0, 101, 1⟩)]), (2, [(21, ⟨0, 201, 2⟩)])]
      [(1, [(11, true)])]).2.1 1 [(11, ⟨0, 101, 1⟩)] 11 ⟨0, 101, 1⟩
      (by decide) (by decide),
   (removeDevicesNotIn_invariants
      [(1, [(11, ⟨0, 101, 1⟩)]), (2, [(21, ⟨0, 201, 2⟩)])]
      [(1, [(11, true)])]).2.2 (by decide) 1 [(11, ⟨0, 101, 1⟩)] [(11, true)]
      (by decide) rfl (by decide)⟩

end KBFS
